import Mathlib

set_option maxRecDepth 8192

/-!
Verification of the satlink-planner core against its design document.

Shallow embedding of the two core subsystems:

* the schedule optimizer (`src/apps/api/scheduling/optimizer.py`):
  `PassCandidate`, `ScheduleResult`, `optimize_schedule` with its
  pairwise constraints (capacity 1) and breakpoint constraints
  (capacity ≠ 1);
* the pass finder (`src/apps/api/services/orbit.py`):
  `find_next_pass`, `_refine_pass`, `_find_crossing`,
  `_find_max_elevation`, with the propagator (`get_az_el_range`,
  an external SGP4/astropy pipeline) abstracted as a function
  `ℚ → Option ℚ` from time to elevation (`none` = the propagation
  raised, mirroring the `try/except` sites in the source);
* the horizon mask (`src/apps/api/passes/horizon.py`) and the mask
  policy of the passes endpoint
  (`src/apps/api/api/v1/endpoints/passes.py`).

Python `datetime`/`timedelta` values are embedded as rationals
(seconds); Python floats as rationals (exact arithmetic); Python
`int(...)` truncation and banker's `round(...)` are embedded
explicitly (`pyInt`, `pyRound`).
-/

namespace Satlink

/-- Python `int(q)`: truncation toward zero. -/
def pyInt (q : ℚ) : ℤ :=
  if 0 ≤ q then ⌊q⌋ else -⌊-q⌋

/-- Python `round(q)` (no digits argument): round half to even. -/
def pyRound (q : ℚ) : ℤ :=
  if q - ⌊q⌋ < 1 / 2 then ⌊q⌋
  else if 1 / 2 < q - ⌊q⌋ then ⌊q⌋ + 1
  else if ⌊q⌋ % 2 = 0 then ⌊q⌋ else ⌊q⌋ + 1

/-- A rational that is an integer is its own truncation. -/
lemma pyInt_intCast (n : ℤ) : pyInt (n : ℚ) = n := by
  unfold pyInt
  split
  · simp
  · rw [← Int.cast_neg, Int.floor_intCast]
    ring

/-! ## Schedule optimizer (`scheduling/optimizer.py`) -/

/-- `PassCandidate` dataclass of `scheduling/optimizer.py`.
`start`/`end` are datetimes, embedded as rational seconds. -/
structure PassCandidate where
  sat_id : String
  start : ℚ
  «end» : ℚ
  min_el_deg : ℚ
  bitrate_bps : ℚ
  weight : ℚ := 1
  deriving DecidableEq

/-- Property `duration_s`: `int((self.end - self.start).total_seconds())`. -/
def PassCandidate.duration_s (c : PassCandidate) : ℤ :=
  pyInt (c.«end» - c.start)

/-- Property `area`: `self.duration_s * self.bitrate_bps * self.weight`. -/
def PassCandidate.area (c : PassCandidate) : ℚ :=
  (c.duration_s : ℚ) * c.bitrate_bps * c.weight

/-- The objective coefficient of one candidate: `int(c.area)` in
`model.Maximize(sum(int(c.area) * x[i] ...))`. -/
def value (c : PassCandidate) : ℤ :=
  pyInt c.area

/-- `ScheduleResult` dataclass: selected indices into the caller's
candidate list and the objective value (a float in the source). -/
structure ScheduleResult where
  selected_indices : List ℕ
  objective_bits : ℚ
  deriving DecidableEq

/-- Candidates `i` and `j` overlap in time: the source's
`not (a.end <= b.start or b.end <= a.start)` guarding the pairwise
constraint `x[i] + x[j] <= 1`. -/
def overlapsB (a b : PassCandidate) : Bool :=
  !(decide (a.«end» ≤ b.start) || decide (b.«end» ≤ a.start))

/-- The breakpoints of the capacity branch:
`sorted({c.start for c in candidates} | {c.end for c in candidates})`
(order is irrelevant to the conjunction of constraints). -/
def timepoints (cands : List PassCandidate) : Finset ℚ :=
  (cands.map PassCandidate.start).toFinset ∪
    (cands.map PassCandidate.«end»).toFinset

/-- `active = [i for i, c in enumerate(candidates) if c.start <= t < c.end]`. -/
def activeSet (cands : List PassCandidate) (t : ℚ) :
    Finset (Fin cands.length) :=
  Finset.univ.filter fun i =>
    (cands.get i).start ≤ t ∧ t < (cands.get i).«end»

/-- How many selected candidates are active at instant `t`. -/
def countActive (cands : List PassCandidate)
    (S : Finset (Fin cands.length)) (t : ℚ) : ℕ :=
  (S ∩ activeSet cands t).card

/-- The constraint set `optimize_schedule` puts on the selection
variables, as a predicate on the selected index set: for
`max_concurrent == 1` the pairwise mutual-exclusion constraints on
overlapping pairs, otherwise one sum constraint per breakpoint with a
nonempty active set (the source skips `if active` empty). -/
def feasibleB (cands : List PassCandidate) (max_concurrent : ℤ)
    (S : Finset (Fin cands.length)) : Bool :=
  if max_concurrent = 1 then
    decide (∀ i j : Fin cands.length, i < j →
      overlapsB (cands.get i) (cands.get j) = true → ¬(i ∈ S ∧ j ∈ S))
  else
    decide (∀ t ∈ timepoints cands, (activeSet cands t).Nonempty →
      (countActive cands S t : ℤ) ≤ max_concurrent)

/-- The objective `sum(int(c.area) * x[i])` of a selection. -/
def objective (cands : List PassCandidate)
    (S : Finset (Fin cands.length)) : ℤ :=
  ∑ i ∈ S, value (cands.get i)

/-- Fold that keeps the argument with the strictly larger objective,
used to model the solver's exact maximization. -/
def argmaxList {α : Type} (f : α → ℤ) : α → List α → α
  | b, [] => b
  | b, a :: l => argmaxList f (if f b < f a then a else b) l

/-- All finsets whose elements come from the list `l` (used to enumerate
every possible selection computably). -/
def sublistsFinsets {α : Type} [DecidableEq α] : List α → List (Finset α)
  | [] => [∅]
  | a :: l => (sublistsFinsets l).map (insert a) ++ sublistsFinsets l

/-- Every finset drawn from `l` is in the enumeration. -/
lemma mem_sublistsFinsets {α : Type} [DecidableEq α] :
    ∀ (l : List α) (S : Finset α), (∀ x ∈ S, x ∈ l) →
      S ∈ sublistsFinsets l := by
  intro l
  induction l with
  | nil =>
    intro S hS
    have : S = ∅ := Finset.eq_empty_of_forall_not_mem fun x hx =>
      (List.not_mem_nil x) (hS x hx)
    simp [sublistsFinsets, this]
  | cons a l ih =>
    intro S hS
    unfold sublistsFinsets
    rw [List.mem_append]
    by_cases ha : a ∈ S
    · left
      rw [List.mem_map]
      refine ⟨S.erase a, ih _ fun x hx => ?_, Finset.insert_erase ha⟩
      have hxS : x ∈ S := Finset.mem_of_mem_erase hx
      have hxa : x ≠ a := Finset.ne_of_mem_erase hx
      rcases List.mem_cons.mp (hS x hxS) with h | h
      · exact absurd h hxa
      · exact h
    · right
      refine ih S fun x hx => ?_
      rcases List.mem_cons.mp (hS x hx) with h | h
      · exact absurd (h ▸ hx) ha
      · exact h

/-- All selections satisfying the model's constraints. -/
def feasibleSubsets (cands : List PassCandidate) (max_concurrent : ℤ) :
    List (Finset (Fin cands.length)) :=
  (sublistsFinsets (List.finRange cands.length)).filter
    (feasibleB cands max_concurrent)

/-- Every selection satisfying the constraints is enumerated. -/
lemma mem_feasibleSubsets {cands : List PassCandidate} {max_concurrent : ℤ}
    {S : Finset (Fin cands.length)}
    (h : feasibleB cands max_concurrent S = true) :
    S ∈ feasibleSubsets cands max_concurrent := by
  unfold feasibleSubsets
  rw [List.mem_filter]
  exact ⟨mem_sublistsFinsets _ _ fun x _ => List.mem_finRange x, h⟩

/-- The selection the solver returns. The CP-SAT solver (ortools) is an
external exact solver consumed as a black box; it is modelled as exact
maximization of the posted objective over the posted constraints. The
8-second wall-clock budget and the resulting `TIMEOUT` status are
real-time behavior and are not modelled. -/
def optimizeSel (cands : List PassCandidate) (max_concurrent : ℤ) :
    Finset (Fin cands.length) :=
  argmaxList (objective cands) ∅ (feasibleSubsets cands max_concurrent)

/-- CP-SAT solver status as the source's `solver.Solve(model)` reports it. -/
inductive CpStatus where
  | optimal
  | feasible
  | timeout
  | infeasible
  deriving DecidableEq

/-- Status of the solve `result = solver.Solve(model)` (computed and then
discarded by the source): with the solver modelled as exact, `OPTIMAL`
whenever the model has any feasible assignment, `INFEASIBLE` otherwise. -/
def solveStatus (cands : List PassCandidate) (max_concurrent : ℤ) : CpStatus :=
  if (feasibleSubsets cands max_concurrent).isEmpty then .infeasible
  else .optimal

/-- `optimize_schedule(candidates, max_concurrent)`:
`chosen = [i for i in range(n) if solver.BooleanValue(x[i])]` and
`obj = solver.ObjectiveValue()`. -/
def optimize_schedule (cands : List PassCandidate)
    (max_concurrent : ℤ) : ScheduleResult :=
  let S := optimizeSel cands max_concurrent
  { selected_indices := ((List.finRange cands.length).filter (· ∈ S)).map Fin.val
    objective_bits := (objective cands S : ℚ) }

/-- The fold keeps the initial element or picks one from the list. -/
lemma argmaxList_mem {α : Type} (f : α → ℤ) :
    ∀ (l : List α) (b : α), argmaxList f b l = b ∨ argmaxList f b l ∈ l := by
  intro l
  induction l with
  | nil => intro b; left; rfl
  | cons a t ih =>
    intro b
    unfold argmaxList
    rcases ih (if f b < f a then a else b) with h | h
    · rw [h]
      split
      · right; exact List.mem_cons_self a t
      · left; rfl
    · right; exact List.mem_cons_of_mem a h

/-- The fold's result dominates its initial element. -/
lemma le_argmaxList_init {α : Type} (f : α → ℤ) :
    ∀ (l : List α) (b : α), f b ≤ f (argmaxList f b l) := by
  intro l
  induction l with
  | nil => intro b; exact le_refl _
  | cons a t ih =>
    intro b
    unfold argmaxList
    refine le_trans ?_ (ih (if f b < f a then a else b))
    split
    · next h => exact le_of_lt h
    · exact le_refl _

/-- The fold's result dominates every element of the list. -/
lemma le_argmaxList_mem {α : Type} (f : α → ℤ) :
    ∀ (l : List α) (b : α), ∀ a ∈ l, f a ≤ f (argmaxList f b l) := by
  intro l
  induction l with
  | nil => intro b a ha; exact absurd ha (List.not_mem_nil a)
  | cons x t ih =>
    intro b a ha
    rcases List.mem_cons.mp ha with h | h
    · subst h
      unfold argmaxList
      refine le_trans ?_ (le_argmaxList_init f t (if f b < f a then a else b))
      split
      · exact le_refl _
      · next hnot => exact le_of_not_lt hnot
    · exact ih (if f b < f x then x else b) a h

/-- The empty selection satisfies the model's constraints (for a
nonnegative capacity, and always for capacity 1). -/
lemma feasibleB_empty (cands : List PassCandidate) (k : ℤ)
    (hk : 0 ≤ k ∨ k = 1) : feasibleB cands k ∅ = true := by
  unfold feasibleB
  split
  · rw [decide_eq_true_iff]
    intro i j _ _ h
    exact absurd h.1 (Finset.not_mem_empty i)
  · next hne =>
    rw [decide_eq_true_iff]
    intro t _ _
    have h0 : countActive cands ∅ t = 0 := by
      simp [countActive]
    rw [h0]
    rcases hk with h | h
    · exact_mod_cast h
    · exact absurd h hne

/-- The solver's selection satisfies the model's constraints. -/
lemma optimizeSel_feasible (cands : List PassCandidate) (k : ℤ)
    (hk : 0 ≤ k ∨ k = 1) : feasibleB cands k (optimizeSel cands k) = true := by
  rcases argmaxList_mem (objective cands) (feasibleSubsets cands k) ∅ with h | h
  · rw [optimizeSel, h]
    exact feasibleB_empty cands k hk
  · exact (List.mem_filter.mp h).2

/-- The solver's selection dominates every selection satisfying the
model's constraints. -/
lemma optimizeSel_le (cands : List PassCandidate) (k : ℤ)
    (S : Finset (Fin cands.length)) (hS : feasibleB cands k S = true) :
    objective cands S ≤ objective cands (optimizeSel cands k) :=
  le_argmaxList_mem (objective cands) (feasibleSubsets cands k) ∅ S
    (mem_feasibleSubsets hS)

/-- No two distinct selected candidates overlap in time. -/
def pairwiseNonOverlap (cands : List PassCandidate)
    (S : Finset (Fin cands.length)) : Prop :=
  ∀ i ∈ S, ∀ j ∈ S, i ≠ j →
    overlapsB (cands.get i) (cands.get j) = false

/-- Interval overlap is symmetric. -/
lemma overlapsB_symm (a b : PassCandidate) :
    overlapsB a b = overlapsB b a := by
  simp [overlapsB, Bool.or_comm]

/-- For capacity 1 the model's pairwise constraints say exactly that the
selected candidates are pairwise non-overlapping. -/
lemma feasibleB_one_iff (cands : List PassCandidate)
    (S : Finset (Fin cands.length)) :
    feasibleB cands 1 S = true ↔ pairwiseNonOverlap cands S := by
  unfold feasibleB
  rw [if_pos rfl, decide_eq_true_iff]
  constructor
  · intro h i hi j hj hne
    rcases Bool.eq_false_or_eq_true
        (overlapsB (cands.get i) (cands.get j)) with hov | hov
    · exfalso
      rcases lt_or_gt_of_ne hne with hlt | hgt
      · exact h i j hlt hov ⟨hi, hj⟩
      · rw [overlapsB_symm] at hov
        exact h j i hgt hov ⟨hj, hi⟩
    · exact hov
  · intro h i j hij hov hmem
    have := h i hmem.1 j hmem.2 (ne_of_lt hij)
    rw [this] at hov
    exact Bool.false_ne_true hov

/-- For capacity ≠ 1 the model's constraints say exactly that every
breakpoint carries at most `k` active selected candidates. -/
lemma feasibleB_ne_one_iff (cands : List PassCandidate) {k : ℤ} (hk : 1 < k)
    (S : Finset (Fin cands.length)) :
    feasibleB cands k S = true ↔
      ∀ t ∈ timepoints cands, (countActive cands S t : ℤ) ≤ k := by
  unfold feasibleB
  rw [if_neg (by omega : ¬k = 1), decide_eq_true_iff]
  constructor
  · intro h t ht
    by_cases hne : (activeSet cands t).Nonempty
    · exact h t ht hne
    · have hempty : activeSet cands t = ∅ :=
        Finset.not_nonempty_iff_eq_empty.mp hne
      have h0 : countActive cands S t = 0 := by
        simp [countActive, hempty]
      rw [h0]
      omega
  · intro h t ht _
    exact h t ht

/-- Breakpoint bounds propagate to every instant: the active-at-`u` set
is contained in the active set of the largest breakpoint at or below `u`
(the latest start among candidates active at `u`). -/
lemma countActive_le_of_breakpoints {cands : List PassCandidate} {k : ℤ}
    {S : Finset (Fin cands.length)}
    (h : ∀ t ∈ timepoints cands, (countActive cands S t : ℤ) ≤ k)
    (hk : 0 ≤ k) : ∀ u : ℚ, (countActive cands S u : ℤ) ≤ k := by
  intro u
  by_cases hA : (S ∩ activeSet cands u).Nonempty
  · have hT : ((S ∩ activeSet cands u).image
        fun i => (cands.get i).start).Nonempty := hA.image _
    obtain ⟨j, hj, hjt⟩ := Finset.mem_image.mp (Finset.max'_mem _ hT)
    have hjact : (cands.get j).start ≤ u ∧ u < (cands.get j).«end» :=
      (Finset.mem_filter.mp (Finset.mem_inter.mp hj).2).2
    have ht_mem : (cands.get j).start ∈ timepoints cands := by
      unfold timepoints
      apply Finset.mem_union_left
      rw [List.mem_toFinset, List.mem_map]
      exact ⟨cands.get j, List.get_mem cands j.1 j.2, rfl⟩
    have hsub : S ∩ activeSet cands u ⊆
        S ∩ activeSet cands ((cands.get j).start) := by
      intro i hi
      have hi' := Finset.mem_inter.mp hi
      have hiact := (Finset.mem_filter.mp hi'.2).2
      refine Finset.mem_inter.mpr ⟨hi'.1, Finset.mem_filter.mpr
        ⟨Finset.mem_univ _, ?_, lt_of_le_of_lt hjact.1 hiact.2⟩⟩
      rw [hjt]
      exact Finset.le_max'
        ((S ∩ activeSet cands u).image fun i => (cands.get i).start)
        ((cands.get i).start)
        (Finset.mem_image_of_mem (fun i => (cands.get i).start) hi)
    calc (countActive cands S u : ℤ)
        ≤ (countActive cands S ((cands.get j).start) : ℤ) := by
          exact_mod_cast Finset.card_le_card hsub
      _ ≤ k := h _ ht_mem
  · have hempty : S ∩ activeSet cands u = ∅ :=
      Finset.not_nonempty_iff_eq_empty.mp hA
    have h0 : countActive cands S u = 0 := by
      simp [countActive, hempty]
    rw [h0]
    exact_mod_cast hk

/-! ### Concrete candidates of the spec's worked example
A = [0,10) value 5, B = [5,15) value 8, C = [10,20) value 5 (values
realized through `bitrate_bps` so that `int(area)` is 5, 8, 5). -/

def candA : PassCandidate :=
  { sat_id := "A", start := 0, «end» := 10, min_el_deg := 0,
    bitrate_bps := 1 / 2, weight := 1 }

def candB : PassCandidate :=
  { sat_id := "B", start := 5, «end» := 15, min_el_deg := 0,
    bitrate_bps := 4 / 5, weight := 1 }

def candC : PassCandidate :=
  { sat_id := "C", start := 10, «end» := 20, min_el_deg := 0,
    bitrate_bps := 1 / 2, weight := 1 }

def exCands : List PassCandidate := [candA, candB, candC]

/-- C1: for capacity `k > 1`, `optimize_schedule`'s constraint set is
exactly one bound per breakpoint (a candidate start or end), and those
breakpoint bounds imply the concurrency bound at every instant `u`
whatsoever. -/
theorem optimizer_breakpoint_formulation_exact
    (cands : List PassCandidate) (k : ℤ)
    (S : Finset (Fin cands.length)) (hk : 1 < k) :
    (feasibleB cands k S = true ↔
      ∀ t ∈ timepoints cands, (countActive cands S t : ℤ) ≤ k) ∧
    ((∀ t ∈ timepoints cands, (countActive cands S t : ℤ) ≤ k) →
      ∀ u : ℚ, (countActive cands S u : ℤ) ≤ k) :=
  ⟨feasibleB_ne_one_iff cands hk S,
    fun h => countActive_le_of_breakpoints h (by omega)⟩

/-- Witness for C1 at the concrete three-candidate instance with
capacity 2 and every candidate selected. -/
theorem optimizer_breakpoint_formulation_exact_witness :
    (feasibleB exCands 2 Finset.univ = true ↔
      ∀ t ∈ timepoints exCands,
        (countActive exCands Finset.univ t : ℤ) ≤ 2) ∧
    ((∀ t ∈ timepoints exCands,
        (countActive exCands Finset.univ t : ℤ) ≤ 2) →
      ∀ u : ℚ, (countActive exCands Finset.univ u : ℤ) ≤ 2) :=
  optimizer_breakpoint_formulation_exact exCands 2 Finset.univ (by norm_num)

/-- C2: with capacity 1 the solver's selection is pairwise
non-overlapping and value-maximal among all pairwise non-overlapping
selections; on the spec's worked instance A=[0,10) value 5, B=[5,15)
value 8, C=[10,20) value 5 it selects {A, C} with objective 10. -/
theorem capacity_one_weighted_interval_optimal :
    (∀ cands : List PassCandidate,
      pairwiseNonOverlap cands (optimizeSel cands 1) ∧
      ∀ S : Finset (Fin cands.length), pairwiseNonOverlap cands S →
        objective cands S ≤ objective cands (optimizeSel cands 1)) ∧
    optimize_schedule exCands 1 = ⟨[0, 2], 10⟩ := by
  constructor
  · intro cands
    constructor
    · exact (feasibleB_one_iff cands _).mp
        (optimizeSel_feasible cands 1 (Or.inr rfl))
    · intro S hS
      exact optimizeSel_le cands 1 S ((feasibleB_one_iff cands S).mpr hS)
  · exact of_decide_eq_true (by with_unfolding_all rfl)

/-- Every selection over the empty candidate list is trivially feasible
(there are no variables and no constraints). -/
lemma feasibleB_nil (k : ℤ)
    (S : Finset (Fin (List.length ([] : List PassCandidate)))) :
    feasibleB [] k S = true := by
  unfold feasibleB
  split
  · rw [decide_eq_true_iff]
    intro i
    exact i.elim0
  · rw [decide_eq_true_iff]
    intro t ht
    simp [timepoints] at ht

/-- The empty model has exactly one assignment, the empty selection. -/
lemma feasibleSubsets_nil (k : ℤ) :
    feasibleSubsets [] k = [∅] := by
  unfold feasibleSubsets
  simp [sublistsFinsets, feasibleB_nil]

/-- C7: scheduling an empty candidate list returns the empty selection
with objective 0 as a normal result, and the solve of the empty model
reports `OPTIMAL` (the source computes this status at
`result = solver.Solve(model)` and does not store it in
`ScheduleResult`, which has no status field). -/
theorem empty_candidates_normal_optimal (k : ℤ) :
    optimize_schedule [] k = { selected_indices := [], objective_bits := 0 } ∧
    solveStatus [] k = CpStatus.optimal := by
  constructor
  · unfold optimize_schedule optimizeSel
    rw [feasibleSubsets_nil]
    simp [argmaxList, objective]
  · unfold solveStatus
    rw [feasibleSubsets_nil]
    rfl

/-- Candidate as built by the schedule endpoint `create_schedule`
(`endpoints/schedule.py`): `bitrate = 120_000.0  # placeholder bitrate`
and `weight=1.0`, with `start`/`end` the found pass's rise/set. -/
def endpointCandidate (sat_id : String) (riseT setT maxEl : ℚ) :
    PassCandidate :=
  { sat_id := sat_id, start := riseT, «end» := setT, min_el_deg := maxEl,
    bitrate_bps := 120000, weight := 1 }

/-- C8 counterexample: a 10-second pass contributes 1 200 000 to the
objective, not its duration 10. -/
theorem endpoint_value_not_duration :
    value (endpointCandidate "SAT" 0 10 45) = 1200000 ∧
    (endpointCandidate "SAT" 0 10 45).duration_s = 10 ∧
    value (endpointCandidate "SAT" 0 10 45) ≠
      (endpointCandidate "SAT" 0 10 45).duration_s :=
  of_decide_eq_true (by with_unfolding_all rfl)

/-- C8 amended: the objective contribution of an endpoint-built
candidate is `120000 × duration_s` — proportional to the pass duration
through the hardcoded placeholder bitrate, not equal to it. -/
theorem endpoint_value_eq_bitrate_mul_duration
    (sat_id : String) (riseT setT maxEl : ℚ) :
    value (endpointCandidate sat_id riseT setT maxEl) =
      120000 * (endpointCandidate sat_id riseT setT maxEl).duration_s := by
  unfold value
  have harea : (endpointCandidate sat_id riseT setT maxEl).area =
      ((120000 * (endpointCandidate sat_id riseT setT maxEl).duration_s :
        ℤ) : ℚ) := by
    unfold PassCandidate.area
    have hb : (endpointCandidate sat_id riseT setT maxEl).bitrate_bps
        = 120000 := rfl
    have hw : (endpointCandidate sat_id riseT setT maxEl).weight = 1 := rfl
    rw [hb, hw]
    push_cast
    ring
  rw [harea, pyInt_intCast]

/-! ## Pass finder (`services/orbit.py`)

The propagator `get_az_el_range` (SGP4 + astropy, an external
collaborator) is abstracted as `elOpt : ℚ → Option ℚ` from UTC time
(rational seconds) to elevation in degrees; `none` models the
propagation raising, exactly at the source's `try/except` sites.
Times and durations are rational seconds, so `timedelta(minutes=30)`
is `1800`, `timedelta(hours=2)` is `7200`. -/

/-- The pass dict `_refine_pass` returns (rise/set/max-elevation times,
max elevation, duration in seconds). -/
structure PassData where
  rise_time : ℚ
  set_time : ℚ
  max_elevation_time : ℚ
  max_elevation : ℚ
  duration_s : ℚ
  deriving DecidableEq

/-- `_find_crossing`'s bisection loop, fuel = the remaining iterations of
`for _ in range(10)`. Each iteration first returns the midpoint if the
bracket is under 1 second, otherwise evaluates elevation at the midpoint
(`none` = the `except` branch, returning `None`) and keeps the half
prescribed by `(rising and el >= min_elevation) or
(not rising and el < min_elevation)`; exhausted fuel is the loop's
fall-through `return None`. -/
def findCrossingAux (elOpt : ℚ → Option ℚ) (min_elevation : ℚ)
    (rising : Bool) : ℕ → ℚ → ℚ → Option ℚ
  | 0, _, _ => none
  | fuel + 1, left, right =>
    if right - left < 1 then some (left + (right - left) / 2)
    else
      match elOpt (left + (right - left) / 2) with
      | none => none
      | some el =>
        if (rising = true ∧ min_elevation ≤ el) ∨
            (rising = false ∧ el < min_elevation) then
          findCrossingAux elOpt min_elevation rising fuel left
            (left + (right - left) / 2)
        else
          findCrossingAux elOpt min_elevation rising fuel
            (left + (right - left) / 2) right

/-- `_find_crossing(t1, t2, ..., min_elevation, rising)`: at most 10
bisection iterations between `t1` and `t2`. -/
def findCrossing (elOpt : ℚ → Option ℚ) (t1 t2 min_elevation : ℚ)
    (rising : Bool) : Option ℚ :=
  findCrossingAux elOpt min_elevation rising 10 t1 t2

/-- `_find_max_elevation`'s sampling loop over the remaining indices
`i` of `range(10)`, carrying `(best_elevation, best_time)`; a failed
sample is `continue`d past. -/
def findMaxElevationAux (elOpt : ℚ → Option ℚ) (t1 t2 : ℚ) :
    List ℕ → ℚ × Option ℚ → ℚ × Option ℚ
  | [], best => best
  | i :: rest, (best_el, best_t) =>
    match elOpt (t1 + (t2 - t1) * ((i : ℚ) / 9)) with
    | none => findMaxElevationAux elOpt t1 t2 rest (best_el, best_t)
    | some el =>
      if best_el < el then
        findMaxElevationAux elOpt t1 t2 rest
          (el, some (t1 + (t2 - t1) * ((i : ℚ) / 9)))
      else
        findMaxElevationAux elOpt t1 t2 rest (best_el, best_t)

/-- `_find_max_elevation(t1, t2, ...)`: sample 10 points
`t1 + (t2 - t1) * (i / 9.0)` and keep the time of the strictly largest
elevation, starting from `best_elevation = -90.0`, `best_time = None`. -/
def findMaxElevation (elOpt : ℚ → Option ℚ) (t1 t2 : ℚ) : Option ℚ :=
  (findMaxElevationAux elOpt t1 t2 (List.range 10) (-90, none)).2

/-- `_refine_pass(start_time, ..., min_elevation, time_step)`: rise
crossing in `[start_time - 30 min, start_time]`, set crossing in
`[start_time, start_time + 2 h]`, `None` if either is missing, then the
culmination search and the final dict. (`time_step` is accepted and
unused, as in the source.) The elevation lookup at `max_el_time` is not
wrapped in `try` in the source; it cannot fail there because
`best_time` is a sample at which the propagation succeeded, and the
`none` arm mirrors a propagation failure ending the refinement without
a pass either way. -/
def refinePass (elOpt : ℚ → Option ℚ)
    (start_time min_elevation time_step : ℚ) : Option PassData :=
  match findCrossing elOpt (start_time - 1800) start_time
      min_elevation true with
  | none => none
  | some rise_time =>
    match findCrossing elOpt start_time (start_time + 7200)
        min_elevation false with
    | none => none
    | some set_time =>
      match findMaxElevation elOpt rise_time set_time with
      | none => none
      | some max_el_time =>
        match elOpt max_el_time with
        | none => none
        | some max_el =>
          some { rise_time := rise_time, set_time := set_time,
                 max_elevation_time := max_el_time,
                 max_elevation := max_el,
                 duration_s := set_time - rise_time }

/-- The coarse scan of `find_next_pass`: fuel = the remaining
iterations of `iteration < max_iterations`; at each step the loop
checks `current_time <= end_time`, evaluates elevation with the
`except` branch substituting `el = -90.0`, and on `el >= min_elevation`
reports the hit time (where the source calls `_refine_pass`), else
advances by `time_step`. -/
def scanHit (elOpt : ℚ → Option ℚ) (min_elevation time_step end_time : ℚ) :
    ℕ → ℚ → Option ℚ
  | 0, _ => none
  | fuel + 1, current_time =>
    if current_time ≤ end_time then
      if min_elevation ≤ ((elOpt current_time).getD (-90)) then
        some current_time
      else
        scanHit elOpt min_elevation time_step end_time fuel
          (current_time + time_step)
    else none

/-- `find_next_pass(...)`: coarse scan then `_refine_pass` at the first
sample at or above `min_elevation`. -/
def findNextPass (elOpt : ℚ → Option ℚ)
    (start_time end_time min_elevation time_step : ℚ)
    (max_iterations : ℕ) : Option PassData :=
  match scanHit elOpt min_elevation time_step end_time
      max_iterations start_time with
  | none => none
  | some t => refinePass elOpt t min_elevation time_step

/-- Ten bisection iterations never shrink a bracket of width at least
`2 ^ fuel / 2` below one second, so the loop always falls through to
`return None`. -/
lemma findCrossingAux_eq_none (elOpt : ℚ → Option ℚ)
    (min_elevation : ℚ) (rising : Bool) :
    ∀ (fuel : ℕ) (l r : ℚ), (2 : ℚ) ^ fuel ≤ 2 * (r - l) →
      findCrossingAux elOpt min_elevation rising fuel l r = none := by
  intro fuel
  induction fuel with
  | zero => intro l r _; rfl
  | succ n ih =>
    intro l r h
    have hpow : (1 : ℚ) ≤ 2 ^ n := one_le_pow₀ (by norm_num)
    have hw : (2 : ℚ) ^ n ≤ r - l := by
      rw [pow_succ] at h
      linarith
    have h1 : ¬(r - l < 1) := by linarith
    unfold findCrossingAux
    rw [if_neg h1]
    cases elOpt (l + (r - l) / 2) with
    | none => rfl
    | some el =>
      have hhalf : (2 : ℚ) ^ n ≤ 2 * ((l + (r - l) / 2) - l) := by
        linarith
      have hhalf' : (2 : ℚ) ^ n ≤ 2 * (r - (l + (r - l) / 2)) := by
        linarith
      simp only
      split
      · exact ih l (l + (r - l) / 2) hhalf
      · exact ih (l + (r - l) / 2) r hhalf'

/-- The rise bracket `_refine_pass` hands to `_find_crossing` is 30
minutes wide, beyond the reach of 10 iterations, so refinement always
returns `None`. -/
lemma refinePass_eq_none (elOpt : ℚ → Option ℚ)
    (start_time min_elevation time_step : ℚ) :
    refinePass elOpt start_time min_elevation time_step = none := by
  unfold refinePass findCrossing
  rw [findCrossingAux_eq_none elOpt min_elevation true 10
    (start_time - 1800) start_time (by norm_num)]

/-- A linear elevation profile (one unit of elevation per second),
crossing any threshold exactly once. -/
def elRamp : ℚ → Option ℚ := fun t => some t

/-- A propagation that always succeeds with elevation 90°: the
satellite never falls below any realistic threshold. -/
def elAlways90 : ℚ → Option ℚ := fun _ => some 90

/-- A propagation that fails (raises) at every sample before `t = 600`
and then succeeds with elevation 90°: ten consecutive coarse-scan
failures at `time_step = 60` starting from 0. -/
def elFailThen90 : ℚ → Option ℚ := fun t => if t < 600 then none else some 90

/-- C3: `find_next_pass` never returns a pass, whatever the propagated
elevation profile and search parameters: the rise bracket handed to
`_find_crossing` is 30 minutes wide and ten bisection iterations cannot
bring it under the 1-second exit condition, so `_refine_pass` always
returns `None` and no `PassWindow` (with or without the claimed
`rise < culmination < set` invariant) is ever produced. -/
theorem pass_finder_never_returns_window (elOpt : ℚ → Option ℚ)
    (start_time end_time min_elevation time_step : ℚ)
    (max_iterations : ℕ) :
    findNextPass elOpt start_time end_time min_elevation time_step
      max_iterations = none := by
  unfold findNextPass
  cases scanHit elOpt min_elevation time_step end_time
      max_iterations start_time with
  | none => rfl
  | some t => exact refinePass_eq_none elOpt t min_elevation time_step

/-- C4: on the bracket `[0, 1800]` (the 30-minute rise bracket) with the
linear profile `elRamp` and threshold 900, a crossing exists inside the
bracket (elevation is 0 at the left end, 900 at `t = 900`), yet
`_find_crossing` returns `None` because its 10-iteration cap leaves the
bracket at 1800/512 ≈ 3.5 s, never `< 1` s; on a bracket narrower than
512 s (here `[500, 980]`) the same bisection does reach the exit
condition and returns a crossing instant. -/
theorem find_crossing_iteration_cap_misses_crossing :
    findCrossing elRamp 0 1800 900 true = none ∧
    elRamp 0 = some 0 ∧ elRamp 900 = some 900 ∧
    (findCrossing elRamp 500 980 900 true).isSome = true :=
  of_decide_eq_true (by with_unfolding_all rfl)

/-- C5 counterexample: with elevation constantly 90° (a rise candidate
at the very first coarse sample and no falling edge within any
lookahead), `find_next_pass` returns `None` — the situation is reported
as "no pass found"; no `PassRefinementError` (or any error) exists in
the source. -/
theorem no_falling_edge_reported_as_none :
    findNextPass elAlways90 0 86400 10 60 1000 = none :=
  of_decide_eq_true (by with_unfolding_all rfl)

/-- C5 amended: whenever `_refine_pass` runs — in particular whenever
the set crossing is not found within the 2-hour lookahead — it returns
`None`, which `find_next_pass` surfaces as "no pass found"; no
refinement error is raised anywhere. -/
theorem refinement_failure_yields_none (elOpt : ℚ → Option ℚ)
    (start_time min_elevation time_step : ℚ) :
    refinePass elOpt start_time min_elevation time_step = none :=
  refinePass_eq_none elOpt start_time min_elevation time_step

/-- C9 counterexample: with propagation failing at samples
`t = 0, 60, ..., 540` (ten consecutive failures) and succeeding at
`t = 600`, the coarse scan does not abort after 5 consecutive failures:
it keeps scanning and reports the hit at `t = 600`. -/
theorem scan_continues_past_five_failures :
    scanHit elFailThen90 10 60 3600 1000 0 = some 600 :=
  of_decide_eq_true (by with_unfolding_all rfl)

/-- C9 amended: a failed propagation sample is treated exactly as
elevation −90° (the `except` branch) and the scan moves on to the next
offset; there is no consecutive-failure cap and no abort-with-error —
with every sample failing, the scan runs to the window or iteration
limit and reports no candidate. -/
theorem scan_failures_treated_as_below_horizon :
    (∀ (elOpt : ℚ → Option ℚ)
        (min_elevation time_step end_time : ℚ) (fuel : ℕ) (t0 : ℚ),
      scanHit elOpt min_elevation time_step end_time fuel t0 =
        scanHit (fun u => some ((elOpt u).getD (-90)))
          min_elevation time_step end_time fuel t0) ∧
    (∀ (min_elevation time_step end_time : ℚ) (fuel : ℕ) (t0 : ℚ),
      -90 < min_elevation →
        scanHit (fun _ => none) min_elevation time_step end_time
          fuel t0 = none) := by
  constructor
  · intro elOpt min_elevation time_step end_time fuel
    induction fuel with
    | zero => intro t0; rfl
    | succ n ih =>
      intro t0
      unfold scanHit
      simp only [Option.getD_some]
      split
      · split
        · rfl
        · exact ih (t0 + time_step)
      · rfl
  · intro min_elevation time_step end_time fuel
    induction fuel with
    | zero => intro t0 _; rfl
    | succ n ih =>
      intro t0 h
      unfold scanHit
      simp only [Option.getD_none]
      rw [if_neg (not_le.mpr h)]
      split
      · exact ih (t0 + time_step) h
      · rfl

/-! ## Horizon mask (`passes/horizon.py`) and the mask policy of the
passes endpoint (`api/v1/endpoints/passes.py`) -/

/-- The azimuth bucket `int(round(azimuth_deg)) % 360`. Python's `%`
with a positive modulus yields a representative in `[0, 360)`, as does
`Int.emod`; Python's 1-argument `round` is round-half-to-even
(`pyRound`), and `int()` of its integer result is the identity. -/
def maskIndex (azimuth_deg : ℚ) : ℤ :=
  pyRound azimuth_deg % 360

lemma maskIndex_nonneg (az : ℚ) : 0 ≤ maskIndex az :=
  Int.emod_nonneg _ (by norm_num)

lemma maskIndex_lt (az : ℚ) : maskIndex az < 360 :=
  Int.emod_lt_of_pos _ (by norm_num)

lemma maskIndex_toNat_lt (az : ℚ) : (maskIndex az).toNat < 360 := by
  have h1 := maskIndex_nonneg az
  have h2 := maskIndex_lt az
  omega

/-- The bucket as an in-bounds index into the 360-entry elevation
array. -/
def maskIndexFin (az : ℚ) : Fin 360 :=
  ⟨(maskIndex az).toNat, maskIndex_toNat_lt az⟩

/-- `StaticMask` dataclass: per-azimuth horizon elevations for the 360
integer azimuths (`angles_deg` is the index array `0..359`, never read
by lookups). -/
structure StaticMask where
  angles_deg : Fin 360 → ℤ
  elevations_deg : Fin 360 → ℚ

/-- `StaticMask.elevation_at`: `i = int(round(azimuth_deg)) % 360;
return float(self.elevations_deg[i])`. -/
def StaticMask.elevation_at (m : StaticMask) (azimuth_deg : ℚ) : ℚ :=
  m.elevations_deg (maskIndexFin azimuth_deg)

/-- `is_visible_with_mask(elevation_deg, azimuth_deg, mask)`. -/
def is_visible_with_mask (elevation_deg azimuth_deg : ℚ)
    (mask : Option StaticMask) : Bool :=
  match mask with
  | none => decide (0 ≤ elevation_deg)
  | some m => decide (m.elevation_at azimuth_deg ≤ elevation_deg)

/-- Round-half-to-even commutes with adding an even integer (the parity
of the floor is preserved, so the tie-break direction is unchanged). -/
lemma pyRound_add_two_mul (q : ℚ) (j : ℤ) :
    pyRound (q + ((2 * j : ℤ) : ℚ)) = pyRound q + 2 * j := by
  unfold pyRound
  rw [Int.floor_add_int]
  have hfrac : q + ((2 * j : ℤ) : ℚ) - ((⌊q⌋ + 2 * j : ℤ) : ℚ)
      = q - ((⌊q⌋ : ℤ) : ℚ) := by
    push_cast
    ring
  rw [show q + ((2 * j : ℤ) : ℚ) - ((⌊q⌋ + 2 * j : ℤ) : ℚ)
      = q - ((⌊q⌋ : ℤ) : ℚ) from hfrac]
  rw [Int.add_mul_emod_self_left]
  split_ifs <;> ring

/-- The azimuth bucket is invariant under whole turns. -/
lemma maskIndex_add_360 (az : ℚ) (k : ℤ) :
    maskIndex (az + 360 * (k : ℚ)) = maskIndex az := by
  unfold maskIndex
  have hcast : az + 360 * (k : ℚ) = az + ((2 * (180 * k) : ℤ) : ℚ) := by
    push_cast
    ring
  rw [hcast, pyRound_add_two_mul,
    show pyRound az + 2 * (180 * k) = pyRound az + 360 * k by ring,
    Int.add_mul_emod_self_left]

/-- C10: `StaticMask.elevation_at` is total on all real azimuths — the
computed index `int(round(az)) % 360` always lies in `[0, 360)`, so the
360-entry lookup is in bounds — and the lookup is 360°-periodic. -/
theorem elevation_at_total_and_periodic (m : StaticMask) (az : ℚ) (k : ℤ) :
    0 ≤ maskIndex az ∧ maskIndex az < 360 ∧
    m.elevation_at (az + 360 * (k : ℚ)) = m.elevation_at az := by
  refine ⟨maskIndex_nonneg az, maskIndex_lt az, ?_⟩
  have hfin : maskIndexFin (az + 360 * (k : ℚ)) = maskIndexFin az := by
    apply Fin.ext
    simp [maskIndexFin, maskIndex_add_360]
  rw [StaticMask.elevation_at, StaticMask.elevation_at, hfin]

/-- One body of `get_passes`' result loop, given the pass
`find_next_pass` produced (endpoint lines 131-155): with a mask
present, recompute azimuth/elevation at `max_elevation_time` and
reject iff `el_tca < mask_elevs[az_idx]` where
`az_idx = int(round(az_tca)) % 360`; a raising recomputation
(`except: pass`) falls through to acceptance. The result is (this pass
was accepted, the next search cursor — always
`set_time + timedelta(minutes=5)`). -/
def processPass (azelOpt : ℚ → Option (ℚ × ℚ))
    (mask_elevs : Option (Fin 360 → ℚ)) (passData : PassData) :
    Bool × ℚ :=
  match mask_elevs with
  | none => (true, passData.set_time + 300)
  | some m =>
    match azelOpt passData.max_elevation_time with
    | none => (true, passData.set_time + 300)
    | some (az_tca, el_tca) =>
      if el_tca < m (maskIndexFin az_tca) then
        (false, passData.set_time + 300)
      else
        (true, passData.set_time + 300)

/-- The propagation of the concrete mask example: azimuth 90°,
elevation 15° at the culmination instant. -/
def azelExample : ℚ → Option (ℚ × ℚ) := fun _ => some (90, 15)

/-- A mask whose value at (every bucket, in particular) azimuth 90 is 10°. -/
def maskTen : Fin 360 → ℚ := fun _ => 10

/-- A mask whose value at (every bucket, in particular) azimuth 90 is 20°. -/
def maskTwenty : Fin 360 → ℚ := fun _ => 20

/-- The concrete pass of the mask example: culmination at `t = 300`,
set at `t = 600`. -/
def pdExample : PassData :=
  { rise_time := 0, set_time := 600, max_elevation_time := 300,
    max_elevation := 15, duration_s := 600 }

/-- C6: with a horizon mask active, a found pass is accepted iff its
recomputed elevation at the culmination instant is at least the mask
value at the single bucket `round(azimuth) mod 360`; whether accepted
or rejected, scanning resumes from `set_time + 5 minutes` (on
rejection the whole window is discarded). On the concrete example
(culmination elevation 15° at azimuth 90°) the pass is accepted under
`mask[90] = 10°` and rejected under `mask[90] = 20°`. -/
theorem mask_policy_single_bucket_at_culmination
    (azelOpt : ℚ → Option (ℚ × ℚ)) (m : Fin 360 → ℚ) (pd : PassData)
    (az el : ℚ) (h : azelOpt pd.max_elevation_time = some (az, el)) :
    ((processPass azelOpt (some m) pd).1 = true ↔
      m (maskIndexFin az) ≤ el) ∧
    (processPass azelOpt (some m) pd).2 = pd.set_time + 300 ∧
    (processPass azelExample (some maskTen) pdExample).1 = true ∧
    (processPass azelExample (some maskTwenty) pdExample).1 = false := by
  have hred : processPass azelOpt (some m) pd
      = if el < m (maskIndexFin az) then (false, pd.set_time + 300)
        else (true, pd.set_time + 300) := by
    unfold processPass
    rw [h]
  refine ⟨?_, ?_, ?_, ?_⟩
  · rw [hred]
    split
    · next hlt => exact iff_of_false (by simp) (not_le_of_lt hlt)
    · next hge => exact iff_of_true rfl (not_lt.mp hge)
  · rw [hred]
    split <;> rfl
  · exact of_decide_eq_true (by with_unfolding_all rfl)
  · exact of_decide_eq_true (by with_unfolding_all rfl)

/-- Witness for C6: the accept-iff criterion, the cursor advance and
both concrete mask outcomes, at the concrete example propagation. -/
theorem mask_policy_single_bucket_at_culmination_witness :
    ((processPass azelExample (some maskTen) pdExample).1 = true ↔
      maskTen (maskIndexFin 90) ≤ 15) ∧
    (processPass azelExample (some maskTen) pdExample).2 =
      pdExample.set_time + 300 ∧
    (processPass azelExample (some maskTen) pdExample).1 = true ∧
    (processPass azelExample (some maskTwenty) pdExample).1 = false :=
  mask_policy_single_bucket_at_culmination azelExample maskTen pdExample
    90 15 rfl

end Satlink
